import Mathlib

/-
Verification of the DevMemArena bump allocator (src/devmem_alloc.h).

The arena is a static triple (base_, size_, offset_) of a char* and two
size_t fields.  We embed it as a structure of natural numbers, with all
size_t arithmetic taken explicitly modulo W = 2^64 and the null pointer
represented by the address 0.  OS effects (open of /dev/mem, mmap) are
passed in as an explicit outcome parameter; process termination via
exit(1) is represented by dedicated result constructors that also carry
the semantic content of the diagnostic that is printed.
-/

/-- Modulus of size_t arithmetic: 2 to the 64. -/
def W : Nat := 2 ^ 64

/-- The static state of class DevMemArena: fields base_ (a char*,
address 0 standing for nullptr), size_ and offset_ (both size_t). -/
structure DevMemArena where
  base_ : Nat
  size_ : Nat
  offset_ : Nat
deriving DecidableEq

/-- The initial static state, from the static member definitions:
base_ = nullptr, size_ = 0, offset_ = 0. -/
def arenaInit : DevMemArena := ⟨0, 0, 0⟩

/-- Result of DevMemArena::init.  fatal: open("/dev/mem") failed or mmap
returned MAP_FAILED, so the process exits with a diagnostic.  warned:
init was called twice; the "called twice" warning is printed and the
state (carried unchanged) is left untouched.  ok: the mapping succeeded
and the new state is installed. -/
inductive InitResult where
  | fatal
  | warned (s : DevMemArena)
  | ok (s : DevMemArena)
deriving DecidableEq

/-- DevMemArena::init(phys_addr, size).  The OS outcome of the
open/mmap pair is the parameter os: none when either call fails (the
code then exits), some m when mmap mapped the range at virtual address
m.  On success the code sets base_ = m, size_ = size, offset_ = 0. -/
def DevMemArena.init (s : DevMemArena) (physAddr size : Nat)
    (os : Option Nat) : InitResult :=
  if s.base_ ≠ 0 then .warned s
  else
    match physAddr, os with
    | _, none => .fatal
    | _, some m => .ok ⟨m, size, 0⟩

/-- Result of DevMemArena::alloc.  ok: the returned pointer address and
the updated state.  oom: the code printed "out of memory (need %zu,
used %zu / %zu)" with the three carried values and exited; the state it
carries is the state at exit, which the failing call has not touched. -/
inductive AllocResult where
  | ok (addr : Nat) (s : DevMemArena)
  | oom (need used total : Nat) (s : DevMemArena)
deriving DecidableEq

/-- The size_t value (offset_ + align - 1) and ~(align - 1) computed by
alloc: 64-bit bitwise NOT of y is (W - 1) - y, and the sum is reduced
mod W.  Requires align at least 1 to match C (alignof is never 0). -/
def DevMemArena.alignUp (offset align : Nat) : Nat :=
  ((offset + align - 1) % W) &&& ((W - 1) - (align - 1))

/-- The size_t value n * sizeof(T) computed by alloc. -/
def DevMemArena.allocNeeded (sz n : Nat) : Nat := (n * sz) % W

/-- DevMemArena::alloc with alignof(T) = align and sizeof(T) = sz:
cur = (offset_ + align - 1) & ~(align - 1), needed = n * sizeof(T),
exit if cur + needed > size_, else offset_ = cur + needed and the
pointer base_ + cur is returned.  All size_t operations are mod W. -/
def DevMemArena.alloc (s : DevMemArena) (align sz n : Nat) : AllocResult :=
  if (DevMemArena.alignUp s.offset_ align + DevMemArena.allocNeeded sz n) % W
      > s.size_ then
    .oom (DevMemArena.allocNeeded sz n) (DevMemArena.alignUp s.offset_ align)
      s.size_ s
  else
    .ok (s.base_ + DevMemArena.alignUp s.offset_ align)
      ⟨s.base_, s.size_,
        (DevMemArena.alignUp s.offset_ align + DevMemArena.allocNeeded sz n) % W⟩

/-- DevMemArena::is_arena_ptr(p): (cp >= base_) && (cp < base_ + size_),
with pointers compared by address. -/
def DevMemArena.is_arena_ptr (s : DevMemArena) (p : Nat) : Bool :=
  decide (s.base_ ≤ p) && decide (p < s.base_ + s.size_)

/-- DevMemArena::print_stats reads offset_ >> 20 and size_ >> 20 and
prints them; we expose the pair of reported values. -/
def DevMemArena.print_stats (s : DevMemArena) : Nat × Nat :=
  (s.offset_ >>> 20, s.size_ >>> 20)

/-- One operation against the arena, for reachability statements. -/
inductive Op where
  | opInit (physAddr size : Nat) (os : Option Nat)
  | opAlloc (align sz n : Nat)
  | opContains (p : Nat)
  | opStats
deriving DecidableEq

/-- The state after one operation completes (for the fatal outcomes the
process has exited; we carry the state at exit, which the operation has
not modified). -/
def applyOp (s : DevMemArena) : Op → DevMemArena
  | .opInit pa size os =>
    match s.init pa size os with
    | .fatal => s
    | .warned t => t
    | .ok t => t
  | .opAlloc a z n =>
    match s.alloc a z n with
    | .ok _ t => t
    | .oom _ _ _ t => t
  | .opContains _ => s
  | .opStats => s

/-- The state reached from the uninitialized static state by a list of
operations. -/
def runOps (ops : List Op) : DevMemArena := ops.foldl applyOp arenaInit

/-- Exact (non-wrapping) round-up of x to the next multiple of a, as the
specification words it.  For a at least 1 this is the least multiple of
a that is at least x. -/
def roundUp (x a : Nat) : Nat := (x + a - 1) / a * a

/-- A single allocation request: alignof(T), sizeof(T), and the count n
passed to alloc. -/
structure Req where
  align : Nat
  sz : Nat
  n : Nat
deriving DecidableEq

/-- Run a sequence of alloc calls, collecting the returned addresses;
none when some call exits with out-of-memory. -/
def allocSeq (s : DevMemArena) : List Req → Option (List Nat × DevMemArena)
  | [] => some ([], s)
  | r :: rs =>
    match s.alloc r.align r.sz r.n with
    | .ok a s1 =>
      match allocSeq s1 rs with
      | some (as, sf) => some (a :: as, sf)
      | none => none
    | .oom _ _ _ _ => none

/-- The cursor after serving a request list with exact arithmetic,
starting from cursor c. -/
def specFinal (c : Nat) : List Req → Nat
  | [] => c
  | r :: rs => specFinal (roundUp c r.align + r.n * r.sz) rs

/-- The extents (start offset, byte size) the requests occupy when
served with exact arithmetic from cursor c. -/
def extents (c : Nat) : List Req → List (Nat × Nat)
  | [] => []
  | r :: rs =>
    (roundUp c r.align, r.n * r.sz) ::
      extents (roundUp c r.align + r.n * r.sz) rs

/-- The aligned extent of each request: alignment padding plus payload
bytes, i.e. the number of bytes the cursor advances by. -/
def alignedExtents (c : Nat) : List Req → List Nat
  | [] => []
  | r :: rs =>
    (roundUp c r.align - c + r.n * r.sz) ::
      alignedExtents (roundUp c r.align + r.n * r.sz) rs

/-- An alignof value: a power of two representable in size_t. -/
def IsAlign (a : Nat) : Prop := ∃ k, k ≤ 64 ∧ a = 2 ^ k

theorem land_mask_eq (k x : Nat) (hk : k ≤ 64) (hx : x < W) :
    x &&& (W - 2 ^ k) = x / 2 ^ k * 2 ^ k := by
  have hmask : W - 2 ^ k = (2 ^ (64 - k) - 1) <<< k := by
    have h64 : 64 - k + k = 64 := by omega
    rw [Nat.shiftLeft_eq, Nat.sub_one_mul, ← pow_add, h64]
    rfl
  have hrhs : x / 2 ^ k * 2 ^ k = (x >>> k) <<< k := by
    rw [Nat.shiftLeft_eq, Nat.shiftRight_eq_div_pow]
  rw [hmask, hrhs]
  apply Nat.eq_of_testBit_eq
  intro i
  simp only [Nat.testBit_land, Nat.testBit_shiftLeft, Nat.testBit_shiftRight,
    Nat.testBit_two_pow_sub_one]
  by_cases hki : k ≤ i
  · have hik : k + (i - k) = i := by omega
    by_cases hi64 : i < 64
    · simp [hki, hik, show i - k < 64 - k by omega]
    · have hxi : x.testBit i = false :=
        Nat.testBit_lt_two_pow
          (lt_of_lt_of_le hx (Nat.pow_le_pow_right (by norm_num) (by omega)))
      simp [hki, hik, hxi]
  · simp [hki]

theorem le_roundUp (x a : Nat) (ha : 0 < a) : x ≤ roundUp x a := by
  have h1 := Nat.mod_add_div' (x + a - 1) a
  have h2 : (x + a - 1) % a < a := Nat.mod_lt _ ha
  unfold roundUp
  omega

theorem roundUp_le (x a : Nat) : roundUp x a ≤ x + a - 1 :=
  Nat.div_mul_le_self _ _

theorem dvd_roundUp (x a : Nat) : a ∣ roundUp x a :=
  dvd_mul_left a _

theorem roundUp_eq_self (x a : Nat) (ha : 0 < a) (h : a ∣ x) :
    roundUp x a = x := by
  obtain ⟨c, rfl⟩ := h
  unfold roundUp
  have h1 : a * c + a - 1 = (a - 1) + c * a := by
    rw [Nat.mul_comm]
    omega
  rw [h1, Nat.add_mul_div_right _ _ ha,
    Nat.div_eq_of_lt (by omega : a - 1 < a), Nat.zero_add, Nat.mul_comm]

theorem dvd_le_of_sub_lt (a m M : Nat) (hm : a ∣ m) (hM : a ∣ M)
    (h : M - a < m) : M ≤ m := by
  obtain ⟨c, rfl⟩ := hm
  obtain ⟨d, rfl⟩ := hM
  have h2 : a * d < a * (c + 1) := by
    rw [Nat.mul_add, Nat.mul_one]
    omega
  have h3 : d < c + 1 := Nat.lt_of_mul_lt_mul_left h2
  exact Nat.mul_le_mul_left a (by omega)

theorem two_pow_le_W (k : Nat) (hk : k ≤ 64) : 2 ^ k ≤ W :=
  Nat.pow_le_pow_right (by norm_num) hk

/-- When the exact aligned request fits in the capacity, alloc behaves
exactly as the specification formula says: no modular wrap occurs, the
cursor becomes roundUp(offset, align) + n * sz and the returned address
is base plus the rounded-up offset. -/
theorem alloc_exact (s : DevMemArena) (k sz n : Nat) (hk : k ≤ 64)
    (hcap : s.size_ < W)
    (hfit : roundUp s.offset_ (2 ^ k) + n * sz ≤ s.size_) :
    s.alloc (2 ^ k) sz n =
      .ok (s.base_ + roundUp s.offset_ (2 ^ k))
        ⟨s.base_, s.size_, roundUp s.offset_ (2 ^ k) + n * sz⟩ := by
  have ha : (0:Nat) < 2 ^ k := by positivity
  have hW : W = 2 ^ 64 := rfl
  have hdvdW : (2:Nat) ^ k ∣ W := by
    rw [hW]
    exact pow_dvd_pow 2 hk
  have hle : (2:Nat) ^ k ≤ W := two_pow_le_W k hk
  have hy : s.offset_ + 2 ^ k - 1 < W := by
    by_contra hge
    push_neg at hge
    have h1 : W - 2 ^ k < s.offset_ := by omega
    have h2 : W - 2 ^ k < roundUp s.offset_ (2 ^ k) :=
      lt_of_lt_of_le h1 (le_roundUp _ _ ha)
    have h3 : W ≤ roundUp s.offset_ (2 ^ k) :=
      dvd_le_of_sub_lt _ _ _ (dvd_roundUp _ _) hdvdW h2
    omega
  have hcur : DevMemArena.alignUp s.offset_ (2 ^ k)
      = roundUp s.offset_ (2 ^ k) := by
    unfold DevMemArena.alignUp
    have hm1 : (W - 1) - (2 ^ k - 1) = W - 2 ^ k := by omega
    rw [Nat.mod_eq_of_lt hy, hm1, land_mask_eq k _ hk hy]
    rfl
  have hneed : DevMemArena.allocNeeded sz n = n * sz := by
    unfold DevMemArena.allocNeeded
    exact Nat.mod_eq_of_lt (by omega)
  unfold DevMemArena.alloc
  rw [hcur, hneed,
    Nat.mod_eq_of_lt (by omega : roundUp s.offset_ (2 ^ k) + n * sz < W),
    if_neg (by omega)]

/-- Claim C1: in an initialized state, alloc computes the aligned start
as the cursor rounded up to the next multiple of the type's alignment
(a power of two) and needed as count times the element size; whenever
aligned_start + needed fits in the capacity it advances the cursor to
aligned_start + needed and returns the address base + aligned_start. -/
theorem alloc_spec_of_fits (s : DevMemArena) (align sz n : Nat)
    (halign : IsAlign align) (hcap : s.size_ < W)
    (hfit : roundUp s.offset_ align + n * sz ≤ s.size_) :
    s.alloc align sz n =
      .ok (s.base_ + roundUp s.offset_ align)
        ⟨s.base_, s.size_, roundUp s.offset_ align + n * sz⟩ := by
  obtain ⟨k, hk, rfl⟩ := halign
  exact alloc_exact s k sz n hk hcap hfit

/-- Witness for C1: the spec scenario, 10 elements of an 8-byte
8-aligned type in a fresh 1024-byte arena land at base with cursor 80. -/
theorem alloc_spec_of_fits_witness :
    roundUp 0 8 + 10 * 8 ≤ 1024 ∧
    DevMemArena.alloc ⟨4096, 1024, 0⟩ 8 8 10 =
      .ok (4096 + roundUp 0 8) ⟨4096, 1024, roundUp 0 8 + 10 * 8⟩ :=
  ⟨by decide,
    alloc_spec_of_fits ⟨4096, 1024, 0⟩ 8 8 10 ⟨3, by decide, rfl⟩
      (by decide) (by decide)⟩

/-- Claim C2: alloc terminates the process exactly when the size_t sum
aligned_start + needed exceeds the capacity; the exhaustion diagnostic
reports the requested bytes (needed) and used versus total bytes, and
the state carried at exit is the unmodified pre-call state. -/
theorem alloc_oom_iff (s : DevMemArena) (align sz n : Nat) :
    s.alloc align sz n =
      .oom (DevMemArena.allocNeeded sz n)
        (DevMemArena.alignUp s.offset_ align) s.size_ s
    ↔ (DevMemArena.alignUp s.offset_ align
        + DevMemArena.allocNeeded sz n) % W > s.size_ := by
  unfold DevMemArena.alloc
  by_cases h : (DevMemArena.alignUp s.offset_ align
      + DevMemArena.allocNeeded sz n) % W > s.size_
  · simp [h]
  · simp [h]

/-- Claim C5: is_arena_ptr is true exactly on addresses in
the interval from base_ (inclusive) to base_ + size_ (exclusive); it is
a pure read of the state by construction. -/
theorem is_arena_ptr_iff (s : DevMemArena) (p : Nat) :
    s.is_arena_ptr p = true ↔ (s.base_ ≤ p ∧ p < s.base_ + s.size_) := by
  unfold DevMemArena.is_arena_ptr
  simp

/-- Claim C7: a second init after a successful one (base_ no longer
null) only emits the called-twice warning and returns, leaving base_,
size_ and offset_ exactly as they were. -/
theorem init_twice_noop (s : DevMemArena) (pa size : Nat) (os : Option Nat)
    (h : s.base_ ≠ 0) : s.init pa size os = .warned s := by
  unfold DevMemArena.init
  rw [if_pos h]

/-- Witness for C7 at a concrete initialized state. -/
theorem init_twice_noop_witness :
    (DevMemArena.mk 4096 1024 80).base_ ≠ 0 ∧
    DevMemArena.init ⟨4096, 1024, 80⟩ 7 2048 (some 8192) =
      .warned ⟨4096, 1024, 80⟩ :=
  ⟨by decide, init_twice_noop ⟨4096, 1024, 80⟩ 7 2048 (some 8192) (by decide)⟩

/-- Claim C8: the size arithmetic of alloc is size_t arithmetic mod
2^64: needed is (n * sizeof) mod 2^64 and the exhaustion test compares
the mod-2^64 sum against capacity; concretely, allocating 2^61 elements
of an 8-byte 8-aligned type from a fresh 16-byte arena has true byte
size 2^64 > 16, yet needed wraps to 0, the check passes and alloc
returns base instead of terminating. -/
theorem alloc_needed_wraps :
    (∀ sz n : Nat, DevMemArena.allocNeeded sz n = (n * sz) % W) ∧
    2 ^ 61 * 8 > (16:Nat) ∧
    DevMemArena.allocNeeded 8 (2 ^ 61) = 0 ∧
    DevMemArena.alloc ⟨4096, 16, 0⟩ 8 8 (2 ^ 61) = .ok 4096 ⟨4096, 16, 0⟩ :=
  ⟨fun _ _ => rfl, by decide, by decide, by decide⟩

/-- Claim C9: in the uninitialized static state base_ is null (0) and
size_ is 0, so is_arena_ptr is false for every pointer. -/
theorem uninit_contains_false :
    arenaInit.base_ = 0 ∧ arenaInit.size_ = 0 ∧
    ∀ p : Nat, arenaInit.is_arena_ptr p = false :=
  ⟨rfl, rfl, fun p => by simp [DevMemArena.is_arena_ptr, arenaInit]⟩

/-- Claim C10: alloc with count 0 does not terminate whenever the
rounded-up cursor is at most the capacity: it advances the cursor to
the aligned offset (consuming the padding permanently) and returns
base + aligned offset; when the arena is exactly full at an aligned
cursor that address is base + capacity. -/
theorem alloc_zero_count (s : DevMemArena) (align sz : Nat)
    (halign : IsAlign align) (hcap : s.size_ < W)
    (hfit : roundUp s.offset_ align ≤ s.size_) :
    s.alloc align sz 0 =
      .ok (s.base_ + roundUp s.offset_ align)
        ⟨s.base_, s.size_, roundUp s.offset_ align⟩ ∧
    (s.offset_ = s.size_ → align ∣ s.offset_ →
      s.base_ + roundUp s.offset_ align = s.base_ + s.size_) := by
  obtain ⟨k, hk, rfl⟩ := halign
  constructor
  · have h := alloc_exact s k sz 0 hk hcap (by simpa using hfit)
    simpa using h
  · intro hfull hdvd
    rw [roundUp_eq_self _ _ (by positivity) hdvd, hfull]

/-- Witness for C10: a 16-byte arena full at aligned cursor 16 serves a
zero-count 8-aligned request at base + 16 = base + capacity. -/
theorem alloc_zero_count_witness :
    roundUp 16 8 ≤ 16 ∧
    DevMemArena.alloc ⟨4096, 16, 16⟩ 8 8 0 =
      .ok (4096 + roundUp 16 8) ⟨4096, 16, roundUp 16 8⟩ ∧
    4096 + roundUp 16 8 = 4096 + 16 :=
  ⟨by decide,
    (alloc_zero_count ⟨4096, 16, 16⟩ 8 8 ⟨3, by decide, rfl⟩ (by decide)
      (by decide)).1,
    (alloc_zero_count ⟨4096, 16, 16⟩ 8 8 ⟨3, by decide, rfl⟩ (by decide)
      (by decide)).2 (by decide) (by decide)⟩

theorem applyOp_inv (s : DevMemArena) (op : Op) (h : s.offset_ ≤ s.size_) :
    (applyOp s op).offset_ ≤ (applyOp s op).size_ := by
  cases op with
  | opInit pa size os =>
    unfold applyOp DevMemArena.init
    by_cases hb : s.base_ ≠ 0
    · simp [hb, h]
    · cases os <;> simp [hb, h]
  | opAlloc a z n =>
    unfold applyOp DevMemArena.alloc
    by_cases hc : (DevMemArena.alignUp s.offset_ a
        + DevMemArena.allocNeeded z n) % W > s.size_
    · simp [hc, h]
    · simp only [hc, if_neg, ite_false]
      omega
  | opContains p => exact h
  | opStats => exact h

theorem foldl_inv (ops : List Op) :
    ∀ s : DevMemArena, s.offset_ ≤ s.size_ →
      (ops.foldl applyOp s).offset_ ≤ (ops.foldl applyOp s).size_ := by
  induction ops with
  | nil => exact fun s h => h
  | cons op rest ih => exact fun s h => ih _ (applyOp_inv s op h)

theorem alloc_oom_state (s : DevMemArena) (align sz n : Nat)
    (need used total : Nat) (t : DevMemArena)
    (h : s.alloc align sz n = .oom need used total t) : t = s := by
  unfold DevMemArena.alloc at h
  by_cases hc : (DevMemArena.alignUp s.offset_ align
      + DevMemArena.allocNeeded sz n) % W > s.size_
  · rw [if_pos hc] at h
    injection h with h1 h2 h3 h4
    exact h4.symm
  · rw [if_neg hc] at h
    injection h

theorem init_warned_of_base_ne (s : DevMemArena) (pa size : Nat)
    (os : Option Nat) (hb : s.base_ ≠ 0) : s.init pa size os = .warned s := by
  unfold DevMemArena.init
  rw [if_pos hb]

/-- Claim C3 (amended): in every state reachable from the uninitialized
static state, 0 ≤ offset_ ≤ size_ holds.  The cursor is unchanged by
contains, by print_stats, by a repeated init and by a failing alloc, and
a successful alloc whose exact aligned request fits within capacity can
only advance it; an alloc whose size_t arithmetic wraps mod 2^64 can,
however, decrease the cursor (see the counterexample). -/
theorem cursor_invariant :
    (∀ ops : List Op, (runOps ops).offset_ ≤ (runOps ops).size_) ∧
    (∀ (s : DevMemArena) (pa size p : Nat) (os : Option Nat),
      applyOp s (.opContains p) = s ∧ applyOp s .opStats = s ∧
      (s.base_ ≠ 0 → applyOp s (.opInit pa size os) = s)) ∧
    (∀ (s : DevMemArena) (align sz n : Nat),
      (∀ need used total t, s.alloc align sz n = .oom need used total t →
        t = s) ∧
      (IsAlign align → s.size_ < W →
        roundUp s.offset_ align + n * sz ≤ s.size_ →
        s.offset_ ≤ (applyOp s (.opAlloc align sz n)).offset_)) := by
  refine ⟨fun ops => foldl_inv ops arenaInit (Nat.le_refl 0), ?_, ?_⟩
  · intro s pa size p os
    refine ⟨rfl, rfl, fun hb => ?_⟩
    simp only [applyOp]
    rw [init_warned_of_base_ne s pa size os hb]
  · intro s align sz n
    refine ⟨fun need used total t h => alloc_oom_state s align sz n _ _ _ _ h,
      fun halign hcap hfit => ?_⟩
    obtain ⟨k, hk, rfl⟩ := halign
    simp only [applyOp]
    rw [alloc_exact s k sz n hk hcap hfit]
    exact Nat.le_trans (le_roundUp _ _ (by positivity)) (Nat.le_add_right _ _)

/-- Witness for C3 at concrete inputs: a reachable two-operation run
satisfies the cursor bound, and a fitting alloc does not decrease the
cursor. -/
theorem cursor_invariant_witness :
    (runOps [Op.opInit 7 1024 (some 4096), Op.opAlloc 8 8 10]).offset_
      ≤ (runOps [Op.opInit 7 1024 (some 4096), Op.opAlloc 8 8 10]).size_ ∧
    (DevMemArena.mk 4096 1024 0).offset_
      ≤ (applyOp ⟨4096, 1024, 0⟩ (Op.opAlloc 8 8 10)).offset_ :=
  ⟨cursor_invariant.1 [Op.opInit 7 1024 (some 4096), Op.opAlloc 8 8 10],
    (cursor_invariant.2.2 ⟨4096, 1024, 0⟩ 8 8 10).2 ⟨3, by decide, rfl⟩
      (by decide) (by decide)⟩

/-- Counterexample to C3 as stated: from the reachable state with
cursor 100 in a 1024-byte arena, allocating 2^64 - 50 one-byte elements
wraps the size_t sum to 50, passes the exhaustion check, and completes
with the cursor decreased from 100 to 50. -/
theorem cursor_decreases_counterexample :
    (runOps [Op.opInit 7 1024 (some 4096), Op.opAlloc 1 1 100]).offset_
      = 100 ∧
    (runOps [Op.opInit 7 1024 (some 4096), Op.opAlloc 1 1 100,
      Op.opAlloc 1 1 (W - 50)]).offset_ = 50 ∧ (50:Nat) < 100 :=
  ⟨by decide, by decide, by decide⟩

/-- Claim C6 (amended): for a successful alloc whose exact aligned
request fits the capacity without mod-2^64 wrap, every address within
the returned extent of count * sizeof bytes tests inside the arena, and
every address outside base..base+size tests outside.  Without the
no-wrap condition a successful alloc can return an extent that leaves
the arena (see the counterexample). -/
theorem alloc_extent_contains (s s1 : DevMemArena) (align sz n addr : Nat)
    (halign : IsAlign align) (hcap : s.size_ < W)
    (hfit : roundUp s.offset_ align + n * sz ≤ s.size_)
    (hok : s.alloc align sz n = .ok addr s1) :
    (∀ a, addr ≤ a → a < addr + n * sz → s1.is_arena_ptr a = true) ∧
    (∀ p, p < s1.base_ ∨ s1.base_ + s1.size_ ≤ p →
      s1.is_arena_ptr p = false) := by
  obtain ⟨k, hk, rfl⟩ := halign
  rw [alloc_exact s k sz n hk hcap hfit] at hok
  injection hok with h1 h2
  subst h1
  subst h2
  constructor
  · intro a ha1 ha2
    simp only [DevMemArena.is_arena_ptr]
    simp only [Bool.and_eq_true, decide_eq_true_eq]
    constructor
    · omega
    · omega
  · intro p hp
    simp only [DevMemArena.is_arena_ptr] at hp ⊢
    rcases hp with hp | hp
    · simp only [Bool.and_eq_false_iff, decide_eq_false_iff_not]
      left
      omega
    · simp only [Bool.and_eq_false_iff, decide_eq_false_iff_not]
      right
      omega

/-- Witness for C6 (amended) at the spec scenario. -/
theorem alloc_extent_contains_witness :
    roundUp 0 8 + 10 * 8 ≤ 1024 ∧
    DevMemArena.is_arena_ptr ⟨4096, 1024, 80⟩ 4100 = true ∧
    DevMemArena.is_arena_ptr ⟨4096, 1024, 80⟩ 4095 = false :=
  ⟨by decide,
    (alloc_extent_contains ⟨4096, 1024, 0⟩ ⟨4096, 1024, 80⟩ 8 8 10 4096
      ⟨3, by decide, rfl⟩ (by decide) (by decide) (by decide)).1 4100
        (by decide) (by decide),
    (alloc_extent_contains ⟨4096, 1024, 0⟩ ⟨4096, 1024, 80⟩ 8 8 10 4096
      ⟨3, by decide, rfl⟩ (by decide) (by decide) (by decide)).2 4095
        (by decide)⟩

/-- Counterexample to C6 as stated: allocating 2^61 elements of an
8-byte type from a fresh 1024-byte arena succeeds (the byte size wraps
to 0), returning base, yet the address base + 1024 + some offset within
the claimed 2^64-byte extent is not in the arena. -/
theorem alloc_extent_contains_counterexample :
    DevMemArena.alloc ⟨4096, 1024, 0⟩ 8 8 (2 ^ 61)
      = .ok 4096 ⟨4096, 1024, 0⟩ ∧
    ((4096:Nat) ≤ 5120 ∧ (5120:Nat) < 4096 + 2 ^ 61 * 8) ∧
    DevMemArena.is_arena_ptr ⟨4096, 1024, 0⟩ 5120 = false :=
  ⟨by decide, by decide, by decide⟩

theorem le_specFinal (rs : List Req) :
    ∀ c : Nat, (∀ r ∈ rs, 0 < r.align) → c ≤ specFinal c rs := by
  induction rs with
  | nil => exact fun c _ => Nat.le_refl c
  | cons r rest ih =>
    intro c h
    have hr : 0 < r.align := h r (List.mem_cons_self r rest)
    have h1 : c ≤ roundUp c r.align + r.n * r.sz :=
      Nat.le_trans (le_roundUp _ _ hr) (Nat.le_add_right _ _)
    exact Nat.le_trans h1
      (ih _ (fun q hq => h q (List.mem_cons_of_mem r hq)))

theorem isAlign_pos (a : Nat) (h : IsAlign a) : 0 < a := by
  obtain ⟨k, _, rfl⟩ := h
  positivity

theorem allocSeq_exact (rs : List Req) :
    ∀ (b cap c : Nat), cap < W → (∀ r ∈ rs, IsAlign r.align) →
      specFinal c rs ≤ cap →
      allocSeq ⟨b, cap, c⟩ rs =
        some ((extents c rs).map (fun e => b + e.1),
          ⟨b, cap, specFinal c rs⟩) := by
  induction rs with
  | nil => intro b cap c _ _ _; rfl
  | cons r rest ih =>
    intro b cap c hcap haligns hfit
    obtain ⟨k, hk, hra⟩ := haligns r (List.mem_cons_self r rest)
    have hpos : ∀ q ∈ rest, 0 < q.align := fun q hq =>
      isAlign_pos _ (haligns q (List.mem_cons_of_mem r hq))
    have hstep : roundUp c r.align + r.n * r.sz ≤ cap :=
      Nat.le_trans (le_specFinal rest _ hpos) hfit
    have hone : DevMemArena.alloc ⟨b, cap, c⟩ r.align r.sz r.n =
        .ok (b + roundUp c r.align)
          ⟨b, cap, roundUp c r.align + r.n * r.sz⟩ := by
      rw [hra]
      exact alloc_exact ⟨b, cap, c⟩ k r.sz r.n hk hcap
        (by rw [← hra]; exact hstep)
    show (match DevMemArena.alloc ⟨b, cap, c⟩ r.align r.sz r.n with
      | .ok a s1 =>
        match allocSeq s1 rest with
        | some (as, sf) => some (a :: as, sf)
        | none => none
      | .oom _ _ _ _ => none) = _
    rw [hone]
    show (match allocSeq ⟨b, cap, roundUp c r.align + r.n * r.sz⟩ rest with
      | some (as, sf) => some ((b + roundUp c r.align) :: as, sf)
      | none => none) = _
    rw [ih b cap (roundUp c r.align + r.n * r.sz) hcap
      (fun q hq => haligns q (List.mem_cons_of_mem r hq)) hfit]
    rfl

theorem extents_bounds (rs : List Req) :
    ∀ c : Nat, (∀ r ∈ rs, 0 < r.align) →
      ∀ e ∈ extents c rs, c ≤ e.1 ∧ e.1 + e.2 ≤ specFinal c rs := by
  induction rs with
  | nil => intro c _ e he; exact absurd he (List.not_mem_nil e)
  | cons r rest ih =>
    intro c h e he
    have hr : 0 < r.align := h r (List.mem_cons_self r rest)
    have hrest : ∀ q ∈ rest, 0 < q.align := fun q hq =>
      h q (List.mem_cons_of_mem r hq)
    rcases List.mem_cons.mp he with rfl | he
    · refine ⟨le_roundUp _ _ hr, ?_⟩
      exact le_specFinal rest _ hrest
    · obtain ⟨h1, h2⟩ := ih _ hrest e he
      refine ⟨?_, h2⟩
      exact Nat.le_trans
        (Nat.le_trans (le_roundUp _ _ hr) (Nat.le_add_right _ _)) h1

theorem extents_chain (rs : List Req) :
    ∀ c : Nat, (∀ r ∈ rs, 0 < r.align) →
      List.Pairwise (fun e1 e2 : Nat × Nat => e1.1 + e1.2 ≤ e2.1)
        (extents c rs) := by
  induction rs with
  | nil => intro c _; exact List.Pairwise.nil
  | cons r rest ih =>
    intro c h
    have hrest : ∀ q ∈ rest, 0 < q.align := fun q hq =>
      h q (List.mem_cons_of_mem r hq)
    refine List.Pairwise.cons ?_ (ih _ hrest)
    intro e he
    exact (extents_bounds rest _ hrest e he).1

theorem extents_align (rs : List Req) :
    ∀ (c b : Nat), (∀ r ∈ rs, IsAlign r.align) →
      (∀ r ∈ rs, r.align ∣ b) →
      List.Forall₂ (fun (r : Req) (e : Nat × Nat) => r.align ∣ (b + e.1))
        rs (extents c rs) := by
  induction rs with
  | nil => intro c b _ _; exact List.Forall₂.nil
  | cons r rest ih =>
    intro c b haligns hbase
    refine List.Forall₂.cons ?_ ?_
    · exact Nat.dvd_add (hbase r (List.mem_cons_self r rest)) (dvd_roundUp _ _)
    · exact ih _ b (fun q hq => haligns q (List.mem_cons_of_mem r hq))
        (fun q hq => hbase q (List.mem_cons_of_mem r hq))

theorem specFinal_eq_sum (rs : List Req) :
    ∀ c : Nat, (∀ r ∈ rs, 0 < r.align) →
      specFinal c rs = c + (alignedExtents c rs).sum := by
  induction rs with
  | nil => intro c _; simp [specFinal, alignedExtents]
  | cons r rest ih =>
    intro c h
    have hr : 0 < r.align := h r (List.mem_cons_self r rest)
    have hru : c ≤ roundUp c r.align := le_roundUp _ _ hr
    have hrest : ∀ q ∈ rest, 0 < q.align := fun q hq =>
      h q (List.mem_cons_of_mem r hq)
    show specFinal (roundUp c r.align + r.n * r.sz) rest = _
    rw [ih _ hrest]
    show _ = c + ((roundUp c r.align - c + r.n * r.sz)
      + (alignedExtents (roundUp c r.align + r.n * r.sz) rest).sum)
    omega

/-- Claim C4: for any sequence of requests with power-of-two alignments
that collectively fit within capacity with exact arithmetic, starting
from a fresh arena whose base respects every requested alignment: the
run succeeds and returns the predicted addresses, each returned address
is a multiple of its requested alignment, the returned extents are
pairwise disjoint and disjoint from the unused tail region, and the
final cursor equals the sum of the aligned extents. -/
theorem allocSeq_correct (rs : List Req) (b cap : Nat) (hcap : cap < W)
    (haligns : ∀ r ∈ rs, IsAlign r.align)
    (hbase : ∀ r ∈ rs, r.align ∣ b)
    (hfit : specFinal 0 rs ≤ cap) :
    allocSeq ⟨b, cap, 0⟩ rs =
      some ((extents 0 rs).map (fun e => b + e.1),
        ⟨b, cap, specFinal 0 rs⟩) ∧
    List.Forall₂ (fun (r : Req) (e : Nat × Nat) => r.align ∣ (b + e.1))
      rs (extents 0 rs) ∧
    List.Pairwise (fun e1 e2 : Nat × Nat =>
      ∀ a, b + e1.1 ≤ a → a < b + e1.1 + e1.2 →
        ¬(b + e2.1 ≤ a ∧ a < b + e2.1 + e2.2)) (extents 0 rs) ∧
    (∀ e ∈ extents 0 rs, b + e.1 + e.2 ≤ b + specFinal 0 rs) ∧
    specFinal 0 rs = (alignedExtents 0 rs).sum := by
  have hpos : ∀ r ∈ rs, 0 < r.align := fun r hr =>
    isAlign_pos _ (haligns r hr)
  refine ⟨allocSeq_exact rs b cap 0 hcap haligns hfit,
    extents_align rs 0 b haligns hbase, ?_, ?_, ?_⟩
  · refine (extents_chain rs 0 hpos).imp ?_
    intro e1 e2 h a h1 h2 h3
    omega
  · intro e he
    have := (extents_bounds rs 0 hpos e he).2
    omega
  · have := specFinal_eq_sum rs 0 hpos
    omega

/-- Witness for C4: the spec scenario, ten 8-byte 8-aligned elements
then one 4-byte 4-aligned element in a fresh 1024-byte arena at a
page-aligned base. -/
theorem allocSeq_correct_witness :
    specFinal 0 [Req.mk 8 8 10, Req.mk 4 4 1] ≤ 1024 ∧
    allocSeq ⟨4096, 1024, 0⟩ [Req.mk 8 8 10, Req.mk 4 4 1] =
      some ((extents 0 [Req.mk 8 8 10, Req.mk 4 4 1]).map
        (fun e => 4096 + e.1),
        ⟨4096, 1024, specFinal 0 [Req.mk 8 8 10, Req.mk 4 4 1]⟩) :=
  ⟨by decide,
    (allocSeq_correct [Req.mk 8 8 10, Req.mk 4 4 1] 4096 1024 (by decide)
      (by
        intro r hr
        rcases List.mem_cons.mp hr with rfl | hr
        · exact ⟨3, by decide, rfl⟩
        · rcases List.mem_cons.mp hr with rfl | hr
          · exact ⟨2, by decide, rfl⟩
          · exact absurd hr (List.not_mem_nil r))
      (by
        intro r hr
        rcases List.mem_cons.mp hr with rfl | hr
        · decide
        · rcases List.mem_cons.mp hr with rfl | hr
          · decide
          · exact absurd hr (List.not_mem_nil r))
      (by decide)).1⟩
